import Mathlib

/-!
Verification of the FnOS_UI_Mods patching engine
(`app/server/server.js`): the backup manager (`ensureBackup`,
`restoreOriginal`), the payload readers (`readTextFromPath` and the
per-channel resolution inside `injectCode`), the marker-based
line-streaming insertion (`injectBlock`), and the orchestrating
`injectCode`.

The filesystem is modelled by the state `FS`: the Target File
(`/usr/trim/www/index.html`) content and permission mode, the Backup
File (`/usr/cqshbak/index.html.original`) content, the single scratch
(temp) file slot used by `injectBlock`, and a map `others` of the
remaining readable paths (payload files; these paths are distinct from
the Target/Backup paths).  `none` content means the file is absent; a
path mapped to `some none` in `others` exists but is not a regular
file.  Operations return the new state together with
`Except String α`: `.error msg` models a thrown JS `Error(msg)`.
-/

deriving instance DecidableEq for Except

/-- Path of the Target File (`INDEX_FILE` in server.js). -/
def INDEX_FILE : String := "/usr/trim/www/index.html"

/-- Path of the Backup File (`BACKUP_FILE` in server.js). -/
def BACKUP_FILE : String := "/usr/cqshbak/index.html.original"

/-- Filesystem state: Target File content and mode, Backup File content,
scratch (temp) file slot, and the other readable paths. -/
structure FS where
  target : Option String
  targetMode : Nat
  backup : Option String
  scratch : Option String
  others : List (String × Option String)
  deriving DecidableEq

/-- Result value of `injectCode`: the `{injected, message}` object. -/
structure InjRes where
  injected : Bool
  message : String
  deriving DecidableEq

/-- JS truthiness of a string-or-null value: `null` and `""` are falsy. -/
def strTruthy : Option String → Bool
  | none => false
  | some s => !(s.isEmpty)

/-- Association lookup in the `others` map (models `fsp.stat` existence
and regular-file check for a payload path). -/
def lookupPath : List (String × Option String) → String → Option (Option String)
  | [], _ => none
  | (k, v) :: t, p => if k = p then some v else lookupPath t p

/-- `readTextFromPath` (server.js:107-113): `stat` the path (throwing if
absent), throw if it is not a regular file, else return its text. -/
def readTextFromPath (others : List (String × Option String)) (p : String) :
    Except String String :=
  match lookupPath others p with
  | none => .error ("ENOENT: no such file or directory, stat " ++ p)
  | some none => .error ("路径不是文件: " ++ p)
  | some (some c) => .ok c

/-- Per-channel payload resolution (server.js:167-177): a truthy path
wins and is read from disk; else truthy inline text is used; else the
channel stays `null`. -/
def resolveChannel (others : List (String × Option String))
    (pth txt : Option String) : Except String (Option String) :=
  if strTruthy pth then
    match readTextFromPath others (pth.getD "") with
    | .error e => .error e
    | .ok c => .ok (some c)
  else if strTruthy txt then .ok txt
  else .ok none

/-- `ensureBackup` (server.js:81-95): if the Backup File exists return
`{created:false}`; else require the Target File (throwing a NotFound
error naming it) and copy it to the Backup File, returning
`{created:true}`.  The returned `Bool` is the `created` flag. -/
def ensureBackup (fs : FS) : FS × Except String Bool :=
  match fs.backup with
  | some _ => (fs, .ok false)
  | none =>
    match fs.target with
    | none => (fs, .error ("未找到系统文件: " ++ INDEX_FILE))
    | some t => ({ fs with backup := some t }, .ok true)

/-- `restoreOriginal` (server.js:97-105): require the Backup File
(throwing "未找到备份文件" if absent), copy it over the Target File and
chmod the Target File to `0o644` (= 420). -/
def restoreOriginal (fs : FS) : FS × Except String Unit :=
  match fs.backup with
  | none => (fs, .error "未找到备份文件")
  | some b => ({ fs with target := some b, targetMode := 420 }, .ok ())

/-- Normalize line terminators the way `readline` with
`crlfDelay: Infinity` does while splitting: `\r\n`, lone `\r` and `\n`
all delimit lines.  Rewrites every terminator to a single `\n`. -/
def normEol : List Char → List Char
  | [] => []
  | '\r' :: '\n' :: cs => '\n' :: normEol cs
  | '\r' :: cs => '\n' :: normEol cs
  | c :: cs => c :: normEol cs

/-- Split a character list on `'\n'`; always returns at least one
(possibly empty) segment. -/
def splitNl : List Char → List (List Char)
  | [] => [[]]
  | c :: cs =>
    match splitNl cs with
    | [] => [[]]
    | r :: rs => if c = '\n' then [] :: r :: rs else (c :: r) :: rs

/-- Drop the final segment when it is empty: a trailing newline does not
produce an extra empty line (matching `readline`). -/
def dropLastEmpty : List (List Char) → List (List Char)
  | [] => []
  | [l] => if l.isEmpty then [] else [l]
  | l :: ls => l :: dropLastEmpty ls

/-- The sequence of lines `readline` emits for a file content. -/
def toLines (s : String) : List String :=
  (dropLastEmpty (splitNl (normEol s.data))).map String.mk

/-- `startsWithL l m`: `m` is a prefix of `l` (character lists). -/
def startsWithL : List Char → List Char → Bool
  | _, [] => true
  | [], _ :: _ => false
  | a :: as, b :: bs => a = b && startsWithL as bs

/-- First index of substring `m` in `l`, JS `String.indexOf` semantics
(`some 0` for the empty substring, `none` when absent). -/
def idxOfSub (m : List Char) : List Char → Option Nat
  | [] => if startsWithL [] m then some 0 else none
  | c :: cs =>
    if startsWithL (c :: cs) m then some 0
    else (idxOfSub m cs).map (· + 1)

/-- The block as emitted by `writer.write(blockLines.join('\n') + '\n')`:
an empty `blockLines` still produces one empty output line. -/
def emitBlock (blk : List String) : List String :=
  if blk.isEmpty then [""] else blk

/-- The scan loop of `injectBlock` (server.js:125-142) as a pure
function on the line sequence: on the first line containing the marker,
emit the before-segment (only when non-empty), the block, then the
after-segment starting at the marker; all other lines pass through.
Returns the output lines and the `inserted` flag. -/
def injectLines (marker : String) (blk : List String) :
    List String → List String × Bool
  | [] => ([], false)
  | l :: ls =>
    match idxOfSub marker.data l.data with
    | some i =>
      ((if (l.data.take i).isEmpty then [] else [String.mk (l.data.take i)])
        ++ emitBlock blk ++ String.mk (l.data.drop i) :: ls, true)
    | none =>
      let r := injectLines marker blk ls
      (l :: r.1, r.2)

/-- Serialize output lines: each followed by a single `\n`
(every `writer.write` in the loop appends `'\n'`). -/
def renderLines : List String → String
  | [] => ""
  | l :: ls => l ++ "\n" ++ renderLines ls

/-- `injectBlock`'s content transformation: split the input into lines,
run the insertion scan, and when the marker was found serialize the
output; `none` models the "未找到插入位置" failure. -/
def injectContent (marker : String) (blk : List String) (c : String) :
    Option String :=
  let r := injectLines marker blk (toLines c)
  if r.2 then some (renderLines r.1) else none

/-- `injectBlock` (server.js:115-158) on the filesystem: stream the
input file through the scan into a scratch file; if the marker was not
found, delete the scratch file and throw (the input file untouched);
else copy the scratch file over the input file and delete the scratch
file.  A missing input file fails the read stream, leaking the scratch
file.  The input path is always the Target File (as in `injectCode`). -/
def injectBlockFS (marker : String) (blk : List String) (fs : FS) :
    FS × Except String Unit :=
  match fs.target with
  | none => ({ fs with scratch := some "" }, .error ("ENOENT: no such file or directory, open " ++ INDEX_FILE))
  | some c =>
    match injectContent marker blk c with
    | some y => ({ fs with target := some y, scratch := none }, .ok ())
    | none => ({ fs with scratch := none }, .error ("未找到插入位置: " ++ marker))

/-- The injection payload `{cssText, jsText, cssPath, jsPath}`. -/
structure Payload where
  cssText : Option String
  jsText : Option String
  cssPath : Option String
  jsPath : Option String
  deriving DecidableEq

/-- The style block lines passed to `injectBlock` (server.js:184-189). -/
def cssBlock (css : String) : List String :=
  ["<style>", "/* Injected CSS */", css, "</style>"]

/-- The script block lines passed to `injectBlock` (server.js:193-198). -/
def jsBlock (js : String) : List String :=
  ["<script>", "// Injected JS", js, "</script>"]

/-- Message returned when both channels are empty (server.js:180). -/
def noContentMsg : String := "未提供任何 CSS/JS 内容"

/-- Success message of `injectCode` (server.js:202). -/
def successMsg : String := "注入成功，请强制刷新浏览器 (Ctrl+F5) 查看效果。"

/-- `await fsp.copyFile(BACKUP_FILE, INDEX_FILE)` (server.js:162):
overwrite the Target File with the Backup File's content (only reached
when the Backup File exists). -/
def copyBackupToTarget (fs : FS) : FS :=
  { fs with target := fs.backup }

/-- One guarded insertion of `injectCode`: `if (finalCss) { await
injectBlock(...) }` — run `injectBlock` when the channel is truthy,
else leave the state alone. -/
def stepInject (cond : Bool) (marker : String) (blk : List String)
    (fs : FS) : FS × Except String Unit :=
  if cond then injectBlockFS marker blk fs else (fs, .ok ())

/-- The body of `injectCode` after the backup has been ensured and
copied over the Target File (server.js:164-202): resolve both channels
(errors propagate), return `{injected:false}` when both are falsy, else
run the style insertion then the script insertion (errors propagate),
chmod the Target File to `0o644` and return `{injected:true}`. -/
def afterBackup (p : Payload) (fs : FS) : FS × Except String InjRes :=
  match resolveChannel fs.others p.cssPath p.cssText with
  | .error e => (fs, .error e)
  | .ok fc =>
    match resolveChannel fs.others p.jsPath p.jsText with
    | .error e => (fs, .error e)
    | .ok fj =>
      if !(strTruthy fc) && !(strTruthy fj) then
        (fs, .ok ⟨false, noContentMsg⟩)
      else
        match stepInject (strTruthy fc) "</head>"
            (cssBlock (fc.getD "")) fs with
        | (fs3, .error e) => (fs3, .error e)
        | (fs3, .ok _) =>
          match stepInject (strTruthy fj) "</body>"
              (jsBlock (fj.getD "")) fs3 with
          | (fs4, .error e) => (fs4, .error e)
          | (fs4, .ok _) => ({ fs4 with targetMode := 420 }, .ok ⟨true, successMsg⟩)

/-- `injectCode` (server.js:160-203): ensure the backup, copy the
Backup File over the Target File, then run `afterBackup`. -/
def injectCode (p : Payload) (fs : FS) : FS × Except String InjRes :=
  match ensureBackup fs with
  | (fs1, .error e) => (fs1, .error e)
  | (fs1, .ok _) => afterBackup p (copyBackupToTarget fs1)

/-- `n` successive `injectCode` calls with the same payload. -/
def injectIter (p : Payload) (fs : FS) : Nat → FS
  | 0 => fs
  | n + 1 => (injectCode p (injectIter p fs n)).1

/-- If no line of the input matches the marker, the scan returns the
lines unchanged with `inserted = false`. -/
theorem injectLines_no_match (marker : String) (blk : List String)
    (ls : List String)
    (h : ∀ l ∈ ls, idxOfSub marker.data l.data = none) :
    injectLines marker blk ls = (ls, false) := by
  induction ls with
  | nil => rfl
  | cons l t ih =>
    have hl := h l (List.mem_cons_self l t)
    have ht := ih (fun x hx => h x (List.mem_cons_of_mem l hx))
    simp [injectLines, hl, ht]

/-- C3: when no line of the Target File contains the marker substring,
`injectBlock` fails with the NotFound error naming the marker, the
Target File keeps its pre-call content (only the scratch slot changes,
to "deleted"), and the scratch file is deleted. -/
theorem injectBlockFS_marker_missing (fs : FS) (marker : String)
    (blk : List String) (c : String)
    (hc : fs.target = some c)
    (h : ∀ l ∈ toLines c, idxOfSub marker.data l.data = none) :
    injectBlockFS marker blk fs =
      ({ fs with scratch := none }, .error ("未找到插入位置: " ++ marker)) := by
  have hno := injectLines_no_match marker blk (toLines c) h
  simp [injectBlockFS, hc, injectContent, hno]

/-- Witness for C3 at a concrete file lacking `</body>`. -/
theorem injectBlockFS_marker_missing_witness :
    injectBlockFS "</body>" ["Y"]
        ⟨some "<head>\nhello\n", 0, none, none, []⟩ =
      ({ (⟨some "<head>\nhello\n", 0, none, none, []⟩ : FS) with
          scratch := none },
        .error ("未找到插入位置: " ++ "</body>")) :=
  injectBlockFS_marker_missing _ "</body>" ["Y"] "<head>\nhello\n" rfl
    (by decide)

/-- C4: `restoreOriginal` fails with the NotFound error "未找到备份文件"
and changes nothing when the Backup File is absent; otherwise it copies
the Backup File's bytes over the Target File and resets the Target
File's mode to `0o644` (420), leaving the Backup File unchanged. -/
theorem restoreOriginal_spec (fs : FS) :
    (fs.backup = none →
      restoreOriginal fs = (fs, .error "未找到备份文件")) ∧
    (∀ b, fs.backup = some b →
      restoreOriginal fs =
        ({ fs with target := some b, targetMode := 420 }, .ok ())) := by
  constructor
  · intro h; simp [restoreOriginal, h]
  · intro b h; simp [restoreOriginal, h]

/-- Witness for C4 at concrete states with and without a backup. -/
theorem restoreOriginal_spec_witness :
    restoreOriginal ⟨some "P", 0, none, none, []⟩ =
      (⟨some "P", 0, none, none, []⟩, .error "未找到备份文件") ∧
    restoreOriginal ⟨some "P", 0, some "B", none, []⟩ =
      (⟨some "B", 420, some "B", none, []⟩, .ok ()) :=
  ⟨(restoreOriginal_spec _).1 rfl,
   (restoreOriginal_spec ⟨some "P", 0, some "B", none, []⟩).2 "B" rfl⟩

/-- C5: `ensureBackup` never mutates the Target File; it is a no-op
returning `{created:false}` when the Backup File exists; it fails with
the NotFound error naming the Target File when both are absent; and
when only the Backup File is absent it copies the Target File to the
Backup File returning `{created:true}`, after which a second call
returns `{created:false}` leaving the Backup File unchanged. -/
theorem ensureBackup_spec (fs : FS) :
    ((ensureBackup fs).1.target = fs.target) ∧
    (∀ b, fs.backup = some b → ensureBackup fs = (fs, .ok false)) ∧
    (fs.backup = none → fs.target = none →
      ensureBackup fs = (fs, .error ("未找到系统文件: " ++ INDEX_FILE))) ∧
    (∀ t, fs.backup = none → fs.target = some t →
      ensureBackup fs = ({ fs with backup := some t }, .ok true) ∧
      ensureBackup { fs with backup := some t } =
        ({ fs with backup := some t }, .ok false)) := by
  refine ⟨?_, ?_, ?_, ?_⟩
  · cases hb : fs.backup with
    | some b => simp [ensureBackup, hb]
    | none =>
      cases ht : fs.target with
      | none => simp [ensureBackup, hb, ht]
      | some t => simp [ensureBackup, hb, ht]
  · intro b h; simp [ensureBackup, h]
  · intro h1 h2; simp [ensureBackup, h1, h2]
  · intro t h1 h2; exact ⟨by simp [ensureBackup, h1, h2], by simp [ensureBackup]⟩

/-- Witness for C5: creation then idempotent second call. -/
theorem ensureBackup_spec_witness :
    ensureBackup ⟨some "T", 0, none, none, []⟩ =
      (⟨some "T", 0, some "T", none, []⟩, .ok true) ∧
    ensureBackup ⟨some "T", 0, some "T", none, []⟩ =
      (⟨some "T", 0, some "T", none, []⟩, .ok false) :=
  (ensureBackup_spec ⟨some "T", 0, none, none, []⟩).2.2.2 "T" rfl rfl

/-- C7: marker insertion on `"<head>\n</head>\n"` with marker `</head>`
and block `["X"]` yields `"<head>\nX\n</head>\n"`: the empty
before-segment is not emitted and the block line precedes the preserved
marker line. -/
theorem injectContent_head_example :
    injectContent "</head>" ["X"] "<head>\n</head>\n" =
      some "<head>\nX\n</head>\n" := by decide

/-- A found index points at an occurrence: the suffix of the line from
that index starts with the marker. -/
theorem idxOfSub_drop (m : List Char) (l : List Char) (i : Nat)
    (h : idxOfSub m l = some i) : startsWithL (l.drop i) m = true := by
  induction l generalizing i with
  | nil =>
    unfold idxOfSub at h
    split at h
    · cases h; simpa using ‹startsWithL [] m = true›
    · cases h
  | cons c cs ih =>
    unfold idxOfSub at h
    split at h
    · cases h; simpa using ‹startsWithL (c :: cs) m = true›
    · obtain ⟨j, hj, rfl⟩ := Option.map_eq_some'.mp h
      simpa using ih j hj

/-- C6: on a line sequence whose first marker-containing line is `l`
(at character index `i`), the scan inserts exactly once there: the
lines before pass through, the before-segment is emitted only when
non-empty, then the block, then the after-segment — which starts with
the marker — and all later lines (even marker-containing ones) pass
through unchanged in order. -/
theorem injectLines_first_match (marker : String) (blk : List String)
    (pre post : List String) (l : String) (i : Nat)
    (hblk : blk ≠ [])
    (hpre : ∀ x ∈ pre, idxOfSub marker.data x.data = none)
    (hl : idxOfSub marker.data l.data = some i) :
    injectLines marker blk (pre ++ l :: post) =
      (pre ++
        (if (l.data.take i).isEmpty then []
         else [String.mk (l.data.take i)])
        ++ blk ++ String.mk (l.data.drop i) :: post, true) ∧
    startsWithL (l.data.drop i) marker.data = true := by
  refine ⟨?_, idxOfSub_drop _ _ _ hl⟩
  induction pre with
  | nil =>
    simp [injectLines, hl, emitBlock, hblk]
  | cons x t ih =>
    have hx := hpre x (List.mem_cons_self x t)
    have ht := ih (fun y hy => hpre y (List.mem_cons_of_mem x hy))
    simp [injectLines, hx, ht]

/-- Witness for C6: marker at index 1 of the second line, with a later
marker-containing line passing through untouched. -/
theorem injectLines_first_match_witness :
    injectLines "</head>" ["X"] (["a"] ++ "b</head>c" :: ["d</head>"]) =
      (["a"] ++
        (if ("b</head>c".data.take 1).isEmpty then []
         else [String.mk ("b</head>c".data.take 1)])
        ++ ["X"] ++ String.mk ("b</head>c".data.drop 1) :: ["d</head>"],
        true) ∧
    startsWithL ("b</head>c".data.drop 1) "</head>".data = true :=
  injectLines_first_match "</head>" ["X"] ["a"] ["d</head>"] "b</head>c" 1
    (by decide) (by decide) (by decide)

/-- C8: per channel, a supplied (non-empty) file reference wins over any
inline text — the referenced file's full text is used and the inline
text is ignored — failing with an error when the path is absent or not
a regular file; with no reference, non-empty inline text is used; else
the channel is omitted (`null`), an empty-string path counting as no
reference. -/
theorem resolveChannel_spec (others : List (String × Option String)) :
    (∀ fp txt content, fp ≠ "" → lookupPath others fp = some (some content) →
      resolveChannel others (some fp) txt = .ok (some content)) ∧
    (∀ fp txt, fp ≠ "" → lookupPath others fp = none →
      resolveChannel others (some fp) txt =
        .error ("ENOENT: no such file or directory, stat " ++ fp)) ∧
    (∀ fp txt, fp ≠ "" → lookupPath others fp = some none →
      resolveChannel others (some fp) txt = .error ("路径不是文件: " ++ fp)) ∧
    (∀ t, t ≠ "" → resolveChannel others none (some t) = .ok (some t)) ∧
    (resolveChannel others none none = .ok none) ∧
    (resolveChannel others none (some "") = .ok none) ∧
    (∀ txt, resolveChannel others (some "") txt =
      resolveChannel others none txt) := by
  refine ⟨?_, ?_, ?_, ?_, ?_, ?_, ?_⟩
  · intro fp txt content hfp hl
    simp [resolveChannel, strTruthy, String.isEmpty_iff, hfp,
      readTextFromPath, hl]
  · intro fp txt hfp hl
    simp [resolveChannel, strTruthy, String.isEmpty_iff, hfp,
      readTextFromPath, hl]
  · intro fp txt hfp hl
    simp [resolveChannel, strTruthy, String.isEmpty_iff, hfp,
      readTextFromPath, hl]
  · intro t ht
    simp [resolveChannel, strTruthy, String.isEmpty_iff, ht]
  · simp [resolveChannel, strTruthy]
  · have h0 : ("" : String).isEmpty = true := rfl
    simp [resolveChannel, strTruthy, h0]
  · intro txt
    have h0 : ("" : String).isEmpty = true := rfl
    simp [resolveChannel, strTruthy, h0]

/-- Witness for C8: the file reference's text beats the inline text;
a dangling reference errors; inline text is used without a reference. -/
theorem resolveChannel_spec_witness :
    resolveChannel [("f.css", some "body")] (some "f.css")
        (some "inline") = .ok (some "body") ∧
    resolveChannel [] (some "gone.css") (some "inline") =
      .error ("ENOENT: no such file or directory, stat " ++ "gone.css") ∧
    resolveChannel [] none (some "inline") = .ok (some "inline") :=
  ⟨(resolveChannel_spec [("f.css", some "body")]).1 "f.css" (some "inline")
      "body" (by decide) (by decide),
   (resolveChannel_spec []).2.1 "gone.css" (some "inline") (by decide)
      (by decide),
   (resolveChannel_spec []).2.2.2.1 "inline" (by decide)⟩

/-- C9: `injectCode` is not atomic — when payload resolution fails (for
either channel), the error surfaces only after the Backup File has been
copied over the Target File, so the failed call leaves the Target File
byte-identical to the Backup File even if it previously held injected
blocks (`fs.target` is arbitrary). -/
theorem injectCode_resolve_error_resets (p : Payload) (fs : FS)
    (b : String) (hb : fs.backup = some b) :
    (∀ e, resolveChannel fs.others p.cssPath p.cssText = .error e →
      injectCode p fs = ({ fs with target := some b }, .error e)) ∧
    (∀ v e, resolveChannel fs.others p.cssPath p.cssText = .ok v →
      resolveChannel fs.others p.jsPath p.jsText = .error e →
      injectCode p fs = ({ fs with target := some b }, .error e)) := by
  constructor
  · intro e he
    simp [injectCode, ensureBackup, hb, copyBackupToTarget, afterBackup, he]
  · intro v e hv he
    simp [injectCode, ensureBackup, hb, copyBackupToTarget, afterBackup,
      hv, he]

/-- Witness for C9: a patched Target File is reset to the backup's
content by a call whose `cssPath` does not resolve. -/
theorem injectCode_resolve_error_resets_witness :
    injectCode ⟨none, none, some "gone.css", none⟩
        ⟨some "patched", 0, some "B", none, []⟩ =
      ({ (⟨some "patched", 0, some "B", none, []⟩ : FS) with
          target := some "B" },
        .error ("ENOENT: no such file or directory, stat " ++ "gone.css")) :=
  (injectCode_resolve_error_resets ⟨none, none, some "gone.css", none⟩
      ⟨some "patched", 0, some "B", none, []⟩ "B" rfl).1
    ("ENOENT: no such file or directory, stat " ++ "gone.css") (by decide)

/-- Counterexample to C2 as stated: with both channels omitted,
`injectCode` does return `{injected:false}`, but the Target File IS
modified — a previously patched target (`"P"`) is overwritten with the
Backup File's content before the empty-payload check. -/
theorem injectCode_empty_modifies_target :
    (injectCode ⟨none, none, none, none⟩
        ⟨some "P", 0, some "B", none, []⟩).2 =
      .ok ⟨false, noContentMsg⟩ ∧
    (injectCode ⟨none, none, none, none⟩
        ⟨some "P", 0, some "B", none, []⟩).1.target ≠
      (⟨some "P", 0, some "B", none, []⟩ : FS).target := by decide

/-- C2 amended: when both resolved channels are omitted, `injectCode`
returns `{injected:false}` with the explanatory message rather than an
error; the Backup File (already existing) is unchanged, but the Target
File is first overwritten with the Backup File's content, so it ends
byte-identical to the backup rather than untouched. -/
theorem injectCode_empty_payload (p : Payload) (fs : FS) (b : String)
    (fc fj : Option String) (hb : fs.backup = some b)
    (hfc : resolveChannel fs.others p.cssPath p.cssText = .ok fc)
    (hfj : resolveChannel fs.others p.jsPath p.jsText = .ok fj)
    (h1 : strTruthy fc = false) (h2 : strTruthy fj = false) :
    injectCode p fs =
      ({ fs with target := some b }, .ok ⟨false, noContentMsg⟩) := by
  simp [injectCode, ensureBackup, hb, copyBackupToTarget, afterBackup,
    hfc, hfj, h1, h2]

/-- Witness for C2's amended claim at a concrete patched state. -/
theorem injectCode_empty_payload_witness :
    injectCode ⟨none, none, none, none⟩
        ⟨some "P", 0, some "B", none, []⟩ =
      ({ (⟨some "P", 0, some "B", none, []⟩ : FS) with target := some "B" },
        .ok ⟨false, noContentMsg⟩) :=
  injectCode_empty_payload ⟨none, none, none, none⟩
    ⟨some "P", 0, some "B", none, []⟩ "B" none none rfl (by decide)
    (by decide) rfl rfl

/-- String concatenation concatenates the character lists. -/
theorem strData_append (a b : String) : (a ++ b).data = a.data ++ b.data :=
  rfl

/-- Terminator normalization never leaves a carriage return behind. -/
theorem normEol_no_cr (cs : List Char) : '\r' ∉ normEol cs := by
  induction cs with
  | nil => simp [normEol]
  | cons c cs ih =>
    cases cs with
    | nil =>
      by_cases hc : c = '\r'
      · subst hc; decide
      · simp [normEol, hc, Ne.symm hc]
    | cons d ds =>
      by_cases hc : c = '\r'
      · subst hc
        by_cases hd : d = '\n'
        · subst hd
          have he : normEol ('\n' :: ds) = '\n' :: normEol ds := by
            simp [normEol]
          rw [he] at ih
          simpa [normEol] using ih
        · simpa [normEol, hd] using ih
      · simpa [normEol, hc, Ne.symm hc] using ih

/-- Every character of every segment of `splitNl cs` comes from `cs`. -/
theorem splitNl_chars (cs : List Char) :
    ∀ l ∈ splitNl cs, ∀ c ∈ l, c ∈ cs := by
  induction cs with
  | nil =>
    intro l hl c hc
    simp [splitNl] at hl
    subst hl
    simp at hc
  | cons x cs ih =>
    intro l hl c hc
    rcases h : splitNl cs with _ | ⟨r, rs⟩
    · simp [splitNl, h] at hl
      subst hl
      simp at hc
    · by_cases hx : x = '\n'
      · have he : splitNl (x :: cs) = [] :: r :: rs := by
          simp [splitNl, h, hx]
        rw [he] at hl
        rcases List.mem_cons.mp hl with rfl | hl
        · simp at hc
        · exact List.mem_cons_of_mem _ (ih l (by rw [h]; exact hl) c hc)
      · have he : splitNl (x :: cs) = (x :: r) :: rs := by
          simp [splitNl, h, hx]
        rw [he] at hl
        rcases List.mem_cons.mp hl with rfl | hl
        · rcases List.mem_cons.mp hc with rfl | hc
          · exact List.mem_cons_self _ _
          · exact List.mem_cons_of_mem _
              (ih r (by rw [h]; exact List.mem_cons_self r rs) c hc)
        · exact List.mem_cons_of_mem _
            (ih l (by rw [h]; exact List.mem_cons_of_mem r hl) c hc)

/-- Dropping the final empty segment only removes segments. -/
theorem dropLastEmpty_subset :
    ∀ (ls : List (List Char)) (l), l ∈ dropLastEmpty ls → l ∈ ls
  | [], _, h => by simp [dropLastEmpty] at h
  | [x], l, h => by
    by_cases hx : x.isEmpty <;> simp [dropLastEmpty, hx] at h
    simp [h]
  | x :: y :: t, l, h => by
    simp only [dropLastEmpty] at h
    rcases List.mem_cons.mp h with rfl | h
    · exact List.mem_cons_self _ _
    · exact List.mem_cons_of_mem _ (dropLastEmpty_subset (y :: t) l h)

/-- No line produced by `toLines` contains a carriage return. -/
theorem toLines_no_cr (s : String) : ∀ l ∈ toLines s, '\r' ∉ l.data := by
  intro l hl
  unfold toLines at hl
  obtain ⟨l', hl', rfl⟩ := List.mem_map.mp hl
  intro hc
  exact normEol_no_cr s.data
    (splitNl_chars (normEol s.data) l'
      (dropLastEmpty_subset _ l' hl') '\r' hc)

/-- Provenance of the scan's output lines: each one is an input line, a
block line (or the empty line of an empty block), or a take/drop split
of an input line. -/
theorem injectLines_mem (marker : String) (blk : List String)
    (ls : List String) :
    ∀ x ∈ (injectLines marker blk ls).1,
      x ∈ ls ∨ x ∈ emitBlock blk ∨
      ∃ l ∈ ls, ∃ i, x = String.mk (l.data.take i) ∨
        x = String.mk (l.data.drop i) := by
  induction ls with
  | nil => intro x hx; simp [injectLines] at hx
  | cons l t ih =>
    intro x hx
    rcases h : idxOfSub marker.data l.data with _ | i
    · simp only [injectLines, h] at hx
      rcases List.mem_cons.mp hx with rfl | hx
      · exact Or.inl (List.mem_cons_self _ _)
      · rcases ih x hx with h1 | h1 | ⟨l', hl', hi⟩
        · exact Or.inl (List.mem_cons_of_mem _ h1)
        · exact Or.inr (Or.inl h1)
        · exact Or.inr (Or.inr ⟨l', List.mem_cons_of_mem _ hl', hi⟩)
    · simp only [injectLines, h] at hx
      rcases List.mem_append.mp hx with hx | hx
      · rcases List.mem_append.mp hx with hx | hx
        · refine Or.inr (Or.inr ⟨l, List.mem_cons_self _ _, i, Or.inl ?_⟩)
          split at hx <;> simp_all
        · exact Or.inr (Or.inl hx)
      · rcases List.mem_cons.mp hx with rfl | hx
        · exact Or.inr (Or.inr ⟨l, List.mem_cons_self _ _, i, Or.inr rfl⟩)
        · exact Or.inl (List.mem_cons_of_mem _ hx)

/-- A successful scan emits at least one line. -/
theorem injectLines_ne_nil (marker : String) (blk : List String)
    (ls : List String)
    (h : (injectLines marker blk ls).2 = true) :
    (injectLines marker blk ls).1 ≠ [] := by
  cases ls with
  | nil => simp [injectLines] at h
  | cons l t =>
    cases hi : idxOfSub marker.data l.data with
    | none => simp [injectLines, hi]
    | some i => simp [injectLines, hi]

/-- A non-empty rendered output ends with a single `\n`. -/
theorem renderLines_last (ls : List String) (h : ls ≠ []) :
    ∃ t, (renderLines ls).data = t ++ ['\n'] := by
  induction ls with
  | nil => exact absurd rfl h
  | cons x t ih =>
    cases t with
    | nil =>
      refine ⟨x.data, ?_⟩
      show (x ++ "\n" ++ renderLines []).data = _
      simp [renderLines, strData_append]
    | cons y u =>
      obtain ⟨t', ht'⟩ := ih (by simp)
      refine ⟨x.data ++ '\n' :: t', ?_⟩
      show (x ++ "\n" ++ renderLines (y :: u)).data = _
      simp [strData_append, ht']

/-- Rendering carriage-return-free lines yields carriage-return-free
output. -/
theorem renderLines_no_cr (ls : List String)
    (h : ∀ x ∈ ls, '\r' ∉ x.data) : '\r' ∉ (renderLines ls).data := by
  induction ls with
  | nil => simp [renderLines]
  | cons x t ih =>
    have hx := h x (List.mem_cons_self x t)
    have ht := ih (fun y hy => h y (List.mem_cons_of_mem x hy))
    show '\r' ∉ (x ++ "\n" ++ renderLines t).data
    rw [strData_append, strData_append]
    intro hc
    rcases List.mem_append.mp hc with hc | hc
    · rcases List.mem_append.mp hc with hc | hc
      · exact hx hc
      · simp at hc
    · exact ht hc

/-- C10: the rewritten content is fully newline-normalized: it always
ends with a trailing `\n` (even when the input's final line had no
terminator), and — provided the injected block itself is
carriage-return-free — contains no carriage return, so CRLF terminators
of the input become LF. -/
theorem injectContent_normalizes (marker : String) (blk : List String)
    (c out : String) (h : injectContent marker blk c = some out) :
    out.data.getLast? = some '\n' ∧
    ((∀ x ∈ blk, '\r' ∉ x.data) → '\r' ∉ out.data) := by
  simp only [injectContent] at h
  split at h
  next h2 =>
    obtain rfl : renderLines (injectLines marker blk (toLines c)).1 = out :=
      Option.some.inj h
    have hne := injectLines_ne_nil marker blk (toLines c) h2
    constructor
    · obtain ⟨t, ht⟩ := renderLines_last _ hne
      simp [ht]
    · intro hblk
      refine renderLines_no_cr _ ?_
      intro x hx
      rcases injectLines_mem marker blk (toLines c) x hx with
        h1 | h1 | ⟨l, hl, i, h1 | h1⟩
      · exact toLines_no_cr c x h1
      · unfold emitBlock at h1
        split at h1
        · rcases List.mem_singleton.mp h1 with rfl
          simp
        · exact hblk x h1
      · subst h1
        intro hc
        exact toLines_no_cr c l hl (List.take_subset i l.data hc)
      · subst h1
        intro hc
        exact toLines_no_cr c l hl (List.drop_subset i l.data hc)
  next => cases h

/-- Witness for C10: a CRLF-terminated input whose final line lacks a
terminator comes out LF-only with a trailing newline. -/
theorem injectContent_normalizes_witness :
    ("<head>\nmid\nX\n</head>tail\n" : String).data.getLast? = some '\n' ∧
    ((∀ x ∈ ["X"], '\r' ∉ x.data) →
      '\r' ∉ ("<head>\nmid\nX\n</head>tail\n" : String).data) :=
  injectContent_normalizes "</head>" ["X"] "<head>\r\nmid</head>tail"
    "<head>\nmid\nX\n</head>tail\n" (by decide)

/-- `injectBlock` touches only the Target File and the scratch slot. -/
theorem injectBlockFS_pres (m : String) (blk : List String) (fs : FS) :
    ((injectBlockFS m blk fs).1.backup = fs.backup) ∧
    ((injectBlockFS m blk fs).1.others = fs.others) := by
  unfold injectBlockFS
  split
  · simp
  · split <;> simp

/-- A guarded insertion touches only the Target File and the scratch
slot. -/
theorem stepInject_pres (c : Bool) (m : String) (blk : List String)
    (fs : FS) :
    ((stepInject c m blk fs).1.backup = fs.backup) ∧
    ((stepInject c m blk fs).1.others = fs.others) := by
  unfold stepInject
  split
  · exact injectBlockFS_pres m blk fs
  · simp

/-- `afterBackup` never changes the Backup File or the payload files. -/
theorem afterBackup_pres (p : Payload) (fs : FS) :
    ((afterBackup p fs).1.backup = fs.backup) ∧
    ((afterBackup p fs).1.others = fs.others) := by
  unfold afterBackup
  cases hc : resolveChannel fs.others p.cssPath p.cssText with
  | error e => simp
  | ok fc =>
    cases hj : resolveChannel fs.others p.jsPath p.jsText with
    | error e => simp
    | ok fj =>
      by_cases hb : (!strTruthy fc && !strTruthy fj) = true
      · simp [hb]
      · cases hstep : stepInject (strTruthy fc) "</head>"
            (cssBlock (fc.getD "")) fs with
        | mk fs3 r3 =>
          have hp := stepInject_pres (strTruthy fc) "</head>"
            (cssBlock (fc.getD "")) fs
          rw [hstep] at hp
          simp only [] at hp
          cases r3 with
          | error e => simp [hb, hstep, hp.1, hp.2]
          | ok u =>
            cases hstep2 : stepInject (strTruthy fj) "</body>"
                (jsBlock (fj.getD "")) fs3 with
            | mk fs4 r4 =>
              have hp2 := stepInject_pres (strTruthy fj) "</body>"
                (jsBlock (fj.getD "")) fs3
              rw [hstep2] at hp2
              simp only [] at hp2
              cases r4 with
              | error e => simp [hb, hstep, hstep2, hp.1, hp.2, hp2.1, hp2.2]
              | ok u2 => simp [hb, hstep, hstep2, hp.1, hp.2, hp2.1, hp2.2]

/-- Running the post-backup pipeline a second time — after re-copying
the (unchanged) Backup File over the Target File — reproduces exactly
the first run's state and result: every branch taken depends only on
the backup content `b` and the payload files, both untouched. -/
theorem afterBackup_copy_idem (p : Payload) (b : String) (mode : Nat)
    (scr : Option String) (oth : List (String × Option String)) :
    afterBackup p (copyBackupToTarget
      (afterBackup p ⟨some b, mode, some b, scr, oth⟩).1) =
    afterBackup p ⟨some b, mode, some b, scr, oth⟩ := by
  cases hc : resolveChannel oth p.cssPath p.cssText with
  | error e => simp [afterBackup, copyBackupToTarget, hc]
  | ok fc =>
    cases hj : resolveChannel oth p.jsPath p.jsText with
    | error e => simp [afterBackup, copyBackupToTarget, hc, hj]
    | ok fj =>
      by_cases hb : (!strTruthy fc && !strTruthy fj) = true
      · simp [afterBackup, copyBackupToTarget, hc, hj, hb]
      · cases hfc : strTruthy fc with
        | false =>
          have hfj : strTruthy fj = true := by
            rcases Bool.eq_false_or_eq_true (strTruthy fj) with h | h
            · exact h
            · exact absurd (by simp [hfc, h]) hb
          cases hcore : injectContent "</body>" (jsBlock (fj.getD "")) b with
          | none =>
            simp [afterBackup, copyBackupToTarget, stepInject, injectBlockFS,
              hc, hj, hfc, hfj, hcore]
          | some y =>
            simp [afterBackup, copyBackupToTarget, stepInject, injectBlockFS,
              hc, hj, hfc, hfj, hcore]
        | true =>
          cases hcore : injectContent "</head>" (cssBlock (fc.getD "")) b with
          | none =>
            simp [afterBackup, copyBackupToTarget, stepInject, injectBlockFS,
              hc, hj, hfc, hcore]
          | some y =>
            cases hfj : strTruthy fj with
            | false =>
              simp [afterBackup, copyBackupToTarget, stepInject,
                injectBlockFS, hc, hj, hfc, hfj, hcore]
            | true =>
              cases hcore2 : injectContent "</body>" (jsBlock (fj.getD "")) y
                with
              | none =>
                simp [afterBackup, copyBackupToTarget, stepInject,
                  injectBlockFS, hc, hj, hfc, hfj, hcore, hcore2]
              | some z =>
                simp [afterBackup, copyBackupToTarget, stepInject,
                  injectBlockFS, hc, hj, hfc, hfj, hcore, hcore2]

/-- A second `injectCode` call on the state a first call left behind
returns exactly the first call's state and result. -/
theorem injectCode_idem (p : Payload) (fs : FS) :
    injectCode p (injectCode p fs).1 = injectCode p fs := by
  obtain ⟨tgt, mode, bak, scr, oth⟩ := fs
  cases bak with
  | some b =>
    have h2 : injectCode p ⟨tgt, mode, some b, scr, oth⟩ =
        afterBackup p ⟨some b, mode, some b, scr, oth⟩ := by
      simp [injectCode, ensureBackup, copyBackupToTarget]
    rw [h2]
    have hbak : (afterBackup p ⟨some b, mode, some b, scr, oth⟩).1.backup =
        some b :=
      (afterBackup_pres p ⟨some b, mode, some b, scr, oth⟩).1
    have h3 : ensureBackup (afterBackup p ⟨some b, mode, some b, scr, oth⟩).1 =
        ((afterBackup p ⟨some b, mode, some b, scr, oth⟩).1, .ok false) := by
      simp [ensureBackup, hbak]
    have h4 : injectCode p (afterBackup p ⟨some b, mode, some b, scr, oth⟩).1 =
        afterBackup p (copyBackupToTarget
          (afterBackup p ⟨some b, mode, some b, scr, oth⟩).1) := by
      simp [injectCode, h3]
    rw [h4, afterBackup_copy_idem]
  | none =>
    cases tgt with
    | none =>
      have h1 : injectCode p ⟨none, mode, none, scr, oth⟩ =
          (⟨none, mode, none, scr, oth⟩,
            .error ("未找到系统文件: " ++ INDEX_FILE)) := by
        simp [injectCode, ensureBackup]
      rw [h1]
      simpa using h1
    | some t =>
      have h2 : injectCode p ⟨some t, mode, none, scr, oth⟩ =
          afterBackup p ⟨some t, mode, some t, scr, oth⟩ := by
        simp [injectCode, ensureBackup, copyBackupToTarget]
      rw [h2]
      have hbak : (afterBackup p ⟨some t, mode, some t, scr, oth⟩).1.backup =
          some t :=
        (afterBackup_pres p ⟨some t, mode, some t, scr, oth⟩).1
      have h3 : ensureBackup
          (afterBackup p ⟨some t, mode, some t, scr, oth⟩).1 =
          ((afterBackup p ⟨some t, mode, some t, scr, oth⟩).1, .ok false) := by
        simp [ensureBackup, hbak]
      have h4 : injectCode p (afterBackup p ⟨some t, mode, some t, scr, oth⟩).1 =
          afterBackup p (copyBackupToTarget
            (afterBackup p ⟨some t, mode, some t, scr, oth⟩).1) := by
        simp [injectCode, h3]
      rw [h4, afterBackup_copy_idem]

/-- Any positive number of repeated calls ends in the single-call
state. -/
theorem injectIter_eq_one (p : Payload) (fs : FS) (n : Nat) :
    injectIter p fs (n + 1) = injectIter p fs 1 := by
  induction n with
  | zero => rfl
  | succ m ih =>
    show (injectCode p (injectIter p fs (m + 1))).1 = _
    rw [ih]
    show (injectCode p (injectCode p fs).1).1 = (injectCode p fs).1
    rw [injectCode_idem]

/-- C1: for every initial state and fixed payload, any positive number
of repeated `injectCode` calls leaves the Target File with content
identical to a single call's — each call re-derives the Target File
from the Backup File, never from the currently patched content. -/
theorem injectCode_repeat_idempotent (p : Payload) (fs : FS) (n : Nat)
    (h : 1 ≤ n) :
    (injectIter p fs n).target = (injectIter p fs 1).target := by
  cases n with
  | zero => exact absurd h (by decide)
  | succ m => rw [injectIter_eq_one]

/-- Witness for C1: three calls equal one call on a fresh state. -/
theorem injectCode_repeat_idempotent_witness :
    (injectIter ⟨some "reddish", none, none, none⟩
      ⟨some "<head>\n</head>\n<body>\n</body>\n", 0, none, none, []⟩
      3).target =
    (injectIter ⟨some "reddish", none, none, none⟩
      ⟨some "<head>\n</head>\n<body>\n</body>\n", 0, none, none, []⟩
      1).target :=
  injectCode_repeat_idempotent ⟨some "reddish", none, none, none⟩
    ⟨some "<head>\n</head>\n<body>\n</body>\n", 0, none, none, []⟩ 3
    (by decide)
